import Mathlib

/-!
# Verification of the encryption dispatch service

Shallow embedding of `pkg/services/encryption/service/service.go`.

Go byte slices and Go strings are both modelled as `List Nat` (each element a
byte value below 256).  Go functions returning `([]byte, error)` are modelled
as returning `List Nat × Option (List Nat)`: the second component is the error
(its rendered message bytes), `none` meaning the Go `nil` error.
-/

namespace EncryptionService

/-- Byte values of the characters of an ASCII string literal. -/
def strBytes (s : String) : List Nat := s.data.map Char.toNat

/-- The constant `encryptionAlgorithmDelimiter = '*'` (ASCII 42). -/
def encryptionAlgorithmDelimiter : Nat := 42

/-- Modelled from the spec: the constant `encryption.AesCfb` lives in the
package `pkg/services/encryption`, which is not among the sources; the spec
fixes the default algorithm identifier to the string aes-cfb. -/
def AesCfb : List Nat := strBytes "aes-cfb"

/-! ## Base64 (Go `encoding/base64`, `RawStdEncoding`)

Standard alphabet, no padding.  `b64char` is the encoding table
`A-Z a-z 0-9 + /`; `b64index` its inverse.  Go`s decoder ignores the newline
bytes 10 and 13 anywhere in its input and rejects inputs whose (filtered)
length is congruent 1 mod 4. -/

/-- Character (byte) at position `i` of the standard base64 alphabet. -/
def b64char (i : Nat) : Nat :=
  if i < 26 then 65 + i
  else if i < 52 then 97 + (i - 26)
  else if i < 62 then 48 + (i - 52)
  else if i = 62 then 43
  else 47

/-- Position of byte `c` in the standard base64 alphabet, if any. -/
def b64index (c : Nat) : Option Nat :=
  if 65 ≤ c ∧ c ≤ 90 then some (c - 65)
  else if 97 ≤ c ∧ c ≤ 122 then some (c - 97 + 26)
  else if 48 ≤ c ∧ c ≤ 57 then some (c - 48 + 52)
  else if c = 43 then some 62
  else if c = 47 then some 63
  else none

/-- `base64.RawStdEncoding.Encode`: big-endian 6-bit groups, no padding. -/
def encodeB64 : List Nat → List Nat
  | [] => []
  | [b0] => [b64char (b0 / 4), b64char (b0 % 4 * 16)]
  | [b0, b1] =>
      [b64char (b0 / 4), b64char (b0 % 4 * 16 + b1 / 16), b64char (b1 % 16 * 4)]
  | b0 :: b1 :: b2 :: rest =>
      b64char (b0 / 4) :: b64char (b0 % 4 * 16 + b1 / 16) ::
      b64char (b1 % 16 * 4 + b2 / 64) :: b64char (b2 % 64) :: encodeB64 rest

/-- Decoding of 4-character quanta (input already stripped of newlines).
A trailing quantum of length 1 is rejected, lengths 2 and 3 yield 1 and 2
bytes; trailing bits are discarded (Go`s non-strict mode). -/
def decodeQuanta : List Nat → Option (List Nat)
  | [] => some []
  | [_] => none
  | [c0, c1] =>
      match b64index c0, b64index c1 with
      | some i0, some i1 => some [i0 * 4 + i1 / 16]
      | _, _ => none
  | [c0, c1, c2] =>
      match b64index c0, b64index c1, b64index c2 with
      | some i0, some i1, some i2 => some [i0 * 4 + i1 / 16, i1 % 16 * 16 + i2 / 4]
      | _, _, _ => none
  | c0 :: c1 :: c2 :: c3 :: rest =>
      match b64index c0, b64index c1, b64index c2, b64index c3, decodeQuanta rest with
      | some i0, some i1, some i2, some i3, some tl =>
          some ((i0 * 4 + i1 / 16) :: (i1 % 16 * 16 + i2 / 4) :: (i2 % 4 * 64 + i3) :: tl)
      | _, _, _, _, _ => none

/-- `base64.RawStdEncoding.Decode`: newline bytes are ignored anywhere. -/
def decodeB64 (bs : List Nat) : Option (List Nat) :=
  decodeQuanta (bs.filter fun c => c != 10 && c != 13)

/-- `base64.RawStdEncoding.DecodedLen`: arithmetic on the raw input length
(newline bytes included). -/
def decodedLen (n : Nat) : Nat := n * 6 / 8

/-! ## Data model -/

/-- `encryption.Cipher`: `(payload, secret) -> (bytes, error)`. -/
def Cipher : Type := List Nat → List Nat → List Nat × Option (List Nat)

/-- `encryption.Decipher`: `(payload, secret) -> (bytes, error)`. -/
def Decipher : Type := List Nat → List Nat → List Nat × Option (List Nat)

/-- The `Service` struct.  The two registries are the maps built once at
construction; `settingsAlgorithm` is the value the settings provider returns
for key `algorithm` in section `security.encryption` (after `MustString`
applied the default), read identically on every operation. -/
structure Service where
  ciphers : List Nat → Option Cipher
  deciphers : List Nat → Option Decipher
  settingsAlgorithm : List Nat

/-! ## Error messages (the rendered Go error strings; 39 is the ASCII
single-quote character used by the fmt verbs in the source) -/

/-- `fmt.Errorf("unable to derive encryption algorithm")`. -/
def errUnableToDerive : List Nat := strBytes "unable to derive encryption algorithm"

/-- The message of a `base64.CorruptInputError` (index suffix elided; no
claim depends on it). -/
def errIllegalBase64 : List Nat := strBytes "illegal base64 data"

/-- `fmt.Errorf("no decipher available for algorithm PERCENT-s", algorithm)`. -/
def errNoDecipher (algorithm : List Nat) : List Nat :=
  strBytes "no decipher available for algorithm " ++ (39 :: algorithm ++ [39])

/-- `fmt.Errorf("no cipher available for algorithm PERCENT-s", algorithm)`. -/
def errNoCipher (algorithm : List Nat) : List Nat :=
  strBytes "no cipher available for algorithm " ++ (39 :: algorithm ++ [39])

/-- `errors.New("no cipher registered for encryption algorithm configured")`,
used (verbatim, both branches) by `checkEncryptionAlgorithm`. -/
def errNoCipherRegistered : List Nat :=
  strBytes "no cipher registered for encryption algorithm configured"

/-! ## The operations -/

/-- `bytes.Index` with a one-byte separator (`bytes.IndexByte`): position of
the first occurrence of byte `c`, `none` for Go`s -1. -/
def bytesIndexByte : List Nat → Nat → Option Nat
  | [], _ => none
  | b :: rest, c => if b = c then some 0 else (bytesIndexByte rest c).map (· + 1)

/-- `deriveEncryptionAlgorithm`: returns `(algorithm, toDecrypt, err)`. -/
def deriveEncryptionAlgorithm (payload : List Nat) :
    List Nat × List Nat × Option (List Nat) :=
  match payload with
  | [] => ([], [], some errUnableToDerive)
  | b :: rest =>
    if b ≠ encryptionAlgorithmDelimiter then
      (AesCfb, b :: rest, none)  -- backwards compatibility
    else
      match bytesIndexByte rest encryptionAlgorithmDelimiter with
      | none => (AesCfb, rest, none)  -- backwards compatibility
      | some algorithmDelimiterIdx =>
        let algorithmB64 := rest.take algorithmDelimiterIdx
        let remainder := rest.drop (algorithmDelimiterIdx + 1)
        match decodeB64 algorithmB64 with
        | none => ([], [], some errIllegalBase64)
        | some algorithm =>
          -- the source ignores the written-byte count of `Decode` and
          -- stringifies its whole `DecodedLen`-sized buffer, so any bytes
          -- beyond the decoded output stay zero (reachable when the segment
          -- carries newline bytes: skipped by the decoder, counted by
          -- `DecodedLen`)
          (algorithm ++
              List.replicate (decodedLen algorithmB64.length - algorithm.length) 0,
            remainder, none)

/-- `Service.Decrypt`. -/
def Service.Decrypt (s : Service) (payload secret : List Nat) :
    List Nat × Option (List Nat) :=
  match deriveEncryptionAlgorithm payload with
  | (_, _, some err) => ([], some err)
  | (algorithm, toDecrypt, none) =>
    match s.deciphers algorithm with
    | none => ([], some (errNoDecipher algorithm))
    | some decipher => decipher toDecrypt secret

/-- `Service.Encrypt`.  NOTE (faithful to the source): the error returned by
the cipher is assigned to the local `err` (and hence logged by the deferred
closure) but the function returns `ciphertext, nil`, so the cipher error is
never surfaced to the caller. -/
def Service.Encrypt (s : Service) (payload secret : List Nat) :
    List Nat × Option (List Nat) :=
  let algorithm := s.settingsAlgorithm
  match s.ciphers algorithm with
  | none => ([], some (errNoCipher algorithm))
  | some cipher =>
    let encrypted := (cipher payload secret).1
    let frameHeader :=
      encryptionAlgorithmDelimiter :: encodeB64 algorithm ++ [encryptionAlgorithmDelimiter]
    (frameHeader ++ encrypted, none)

/-- `Service.EncryptJsonData`: the Go map is modelled as an association list
whose order is the (arbitrary) iteration order of the range loop. -/
def Service.EncryptJsonData (s : Service) (kv : List (List Nat × List Nat))
    (secret : List Nat) : Option (List (List Nat × List Nat)) × Option (List Nat) :=
  match kv with
  | [] => (some [], none)
  | (key, value) :: rest =>
    match s.Encrypt value secret with
    | (_, some err) => (none, some err)
    | (encryptedData, none) =>
      match s.EncryptJsonData rest secret with
      | (none, err) => (none, err)
      | (some encrypted, _) => (some ((key, encryptedData) :: encrypted), none)

/-- `Service.DecryptJsonData`, symmetric to `Service.EncryptJsonData`. -/
def Service.DecryptJsonData (s : Service) (sjd : List (List Nat × List Nat))
    (secret : List Nat) : Option (List (List Nat × List Nat)) × Option (List Nat) :=
  match sjd with
  | [] => (some [], none)
  | (key, data) :: rest =>
    match s.Decrypt data secret with
    | (_, some err) => (none, some err)
    | (decryptedData, none) =>
      match s.DecryptJsonData rest secret with
      | (none, err) => (none, err)
      | (some decrypted, _) => (some ((key, decryptedData) :: decrypted), none)

/-- `Service.GetDecryptedValue`. -/
def Service.GetDecryptedValue (s : Service) (sjd : List (List Nat × List Nat))
    (key fallback secret : List Nat) : List Nat :=
  match sjd.lookup key with
  | some value =>
    match s.Decrypt value secret with
    | (_, some _) => fallback
    | (decryptedData, none) => decryptedData
  | none => fallback

/-- `Service.checkEncryptionAlgorithm` (note: the source reuses the same
message for the missing-decipher branch). -/
def Service.checkEncryptionAlgorithm (s : Service) (algorithm : List Nat) :
    Option (List Nat) :=
  if (s.ciphers algorithm).isNone then some errNoCipherRegistered
  else if (s.deciphers algorithm).isNone then some errNoCipherRegistered
  else none

/-- `ProvideEncryptionService`: builds the service from the provider`s two
registries and the configured algorithm (the settings value after the default
was applied), validates, and returns `(service, error)`. -/
def ProvideEncryptionService (ciphers : List Nat → Option Cipher)
    (deciphers : List Nat → Option Decipher) (settingsAlgorithm : List Nat) :
    Option Service × Option (List Nat) :=
  let s : Service := ⟨ciphers, deciphers, settingsAlgorithm⟩
  match s.checkEncryptionAlgorithm settingsAlgorithm with
  | some err => (none, some err)
  | none => (some s, none)

/-- Common recursion scheme of `Service.EncryptJsonData` and
`Service.DecryptJsonData`: transform every value with `f`, stopping at the
first error (proof-layer helper, related to the two by the lemmas below). -/
def mapJson (f : List Nat → List Nat × Option (List Nat)) :
    List (List Nat × List Nat) → Option (List (List Nat × List Nat)) × Option (List Nat)
  | [] => (some [], none)
  | (key, value) :: rest =>
    match f value with
    | (_, some err) => (none, some err)
    | (out, none) =>
      match mapJson f rest with
      | (none, err) => (none, err)
      | (some tl, _) => (some ((key, out) :: tl), none)

/-! ## Concrete instances used by the witnesses -/

/-- A cipher (also usable as decipher) that returns its payload unchanged. -/
def idCipher : Cipher := fun payload _ => (payload, none)

/-- A cipher that always fails. -/
def failingCipher : Cipher := fun _ _ => ([], some (strBytes "cipher failure"))

/-- A service whose registries hold the identity cipher and decipher for the
algorithm aes-cfb only, with aes-cfb configured. -/
def svcAes : Service where
  ciphers := fun a => if a = AesCfb then some idCipher else none
  deciphers := fun a => if a = AesCfb then some idCipher else none
  settingsAlgorithm := AesCfb

/-- Like `svcAes` but the registered cipher always fails. -/
def svcFailingCipher : Service where
  ciphers := fun a => if a = AesCfb then some failingCipher else none
  deciphers := fun a => if a = AesCfb then some idCipher else none
  settingsAlgorithm := AesCfb

/-! ## Sanity checks on concrete inputs -/

example : strBytes "aes-cfb" = [97, 101, 115, 45, 99, 102, 98] := by decide

example : encodeB64 (strBytes "aes-cfb") = strBytes "YWVzLWNmYg" := by decide

example : decodeB64 (strBytes "YWVzLWNmYg") = some (strBytes "aes-cfb") := by decide

example : deriveEncryptionAlgorithm (strBytes "*YWVzLWNmYg*XYZ") =
    (AesCfb, strBytes "XYZ", none) := by decide

example : deriveEncryptionAlgorithm [] = ([], [], some errUnableToDerive) := by decide

example : deriveEncryptionAlgorithm (strBytes "legacy") =
    (AesCfb, strBytes "legacy", none) := by decide

example : deriveEncryptionAlgorithm (strBytes "*legacy") =
    (AesCfb, strBytes "legacy", none) := by decide

-- newline inside the segment: the decoder skips it, DecodedLen counts it,
-- so the recovered identifier is the decoded byte 65 plus one zero byte
example : deriveEncryptionAlgorithm (strBytes "*QQ\n*x") =
    ([65, 0], strBytes "x", none) := by decide

/-! ## Base64 lemmas -/

/-- Every alphabet byte differs from the delimiter 42 and the newline bytes
10 and 13. -/
theorem b64char_ne_delims : ∀ i, i < 64 → b64char i ≠ 42 ∧ b64char i ≠ 10 ∧ b64char i ≠ 13 := by
  decide

/-- Decoding table inverts the encoding table. -/
theorem b64index_b64char : ∀ i, i < 64 → b64index (b64char i) = some i := by
  decide

/-- No byte of an encoded segment is the delimiter 42 or a newline byte. -/
theorem encodeB64_ne_delims :
    ∀ bs : List Nat, (∀ b ∈ bs, b < 256) →
      ∀ c ∈ encodeB64 bs, c ≠ 42 ∧ c ≠ 10 ∧ c ≠ 13
  | [], _, c, hc => by simp [encodeB64] at hc
  | [b0], h, c, hc => by
      have hb0 : b0 < 256 := h b0 (by simp)
      simp only [encodeB64, List.mem_cons, List.not_mem_nil, or_false] at hc
      rcases hc with rfl | rfl
      · exact b64char_ne_delims _ (by omega)
      · exact b64char_ne_delims _ (by omega)
  | [b0, b1], h, c, hc => by
      have hb0 : b0 < 256 := h b0 (by simp)
      have hb1 : b1 < 256 := h b1 (by simp)
      simp only [encodeB64, List.mem_cons, List.not_mem_nil, or_false] at hc
      rcases hc with rfl | rfl | rfl
      · exact b64char_ne_delims _ (by omega)
      · exact b64char_ne_delims _ (by omega)
      · exact b64char_ne_delims _ (by omega)
  | b0 :: b1 :: b2 :: rest, h, c, hc => by
      have hb0 : b0 < 256 := h b0 (by simp)
      have hb1 : b1 < 256 := h b1 (by simp)
      have hb2 : b2 < 256 := h b2 (by simp)
      simp only [encodeB64, List.mem_cons] at hc
      rcases hc with rfl | rfl | rfl | rfl | hc
      · exact b64char_ne_delims _ (by omega)
      · exact b64char_ne_delims _ (by omega)
      · exact b64char_ne_delims _ (by omega)
      · exact b64char_ne_delims _ (by omega)
      · exact encodeB64_ne_delims rest (fun b hb => h b (by simp [hb])) c hc

/-- Decoding quanta inverts encoding when every byte is below 256. -/
theorem decodeQuanta_encodeB64 :
    ∀ bs : List Nat, (∀ b ∈ bs, b < 256) → decodeQuanta (encodeB64 bs) = some bs
  | [], _ => rfl
  | [b0], h => by
      have hb0 : b0 < 256 := h b0 (by simp)
      have h0 := b64index_b64char (b0 / 4) (by omega)
      have h1 := b64index_b64char (b0 % 4 * 16) (by omega)
      simp only [encodeB64, decodeQuanta, h0, h1, Option.some.injEq, List.cons.injEq, and_true]
      omega
  | [b0, b1], h => by
      have hb0 : b0 < 256 := h b0 (by simp)
      have hb1 : b1 < 256 := h b1 (by simp)
      have h0 := b64index_b64char (b0 / 4) (by omega)
      have h1 := b64index_b64char (b0 % 4 * 16 + b1 / 16) (by omega)
      have h2 := b64index_b64char (b1 % 16 * 4) (by omega)
      simp only [encodeB64, decodeQuanta, h0, h1, h2, Option.some.injEq, List.cons.injEq,
        and_true]
      exact ⟨by omega, by omega⟩
  | b0 :: b1 :: b2 :: rest, h => by
      have hb0 : b0 < 256 := h b0 (by simp)
      have hb1 : b1 < 256 := h b1 (by simp)
      have hb2 : b2 < 256 := h b2 (by simp)
      have ih := decodeQuanta_encodeB64 rest (fun b hb => h b (by simp [hb]))
      have h0 := b64index_b64char (b0 / 4) (by omega)
      have h1 := b64index_b64char (b0 % 4 * 16 + b1 / 16) (by omega)
      have h2 := b64index_b64char (b1 % 16 * 4 + b2 / 64) (by omega)
      have h3 := b64index_b64char (b2 % 64) (by omega)
      simp only [encodeB64, decodeQuanta, h0, h1, h2, h3, ih, Option.some.injEq,
        List.cons.injEq, and_true]
      exact ⟨by omega, by omega, by omega⟩

/-- A successful quanta decode writes exactly `decodedLen` of its input
length. -/
theorem decodeQuanta_length : ∀ (cs bs : List Nat), decodeQuanta cs = some bs →
    bs.length = decodedLen cs.length
  | [], bs, h => by
      simp only [decodeQuanta, Option.some.injEq] at h
      subst h
      rfl
  | [c], bs, h => by simp [decodeQuanta] at h
  | [c0, c1], bs, h => by
      simp only [decodeQuanta] at h
      split at h
      · simp only [Option.some.injEq] at h
        subst h
        simp [decodedLen]
      · exact absurd h (by simp)
  | [c0, c1, c2], bs, h => by
      simp only [decodeQuanta] at h
      split at h
      · simp only [Option.some.injEq] at h
        subst h
        simp [decodedLen]
      · exact absurd h (by simp)
  | c0 :: c1 :: c2 :: c3 :: rest, bs, h => by
      simp only [decodeQuanta] at h
      split at h
      · rename_i i0 i1 i2 i3 tl h0 h1 h2 h3 h4
        simp only [Option.some.injEq] at h
        subst h
        have ih := decodeQuanta_length rest tl h4
        simp only [List.length_cons, decodedLen] at ih ⊢
        omega
      · exact absurd h (by simp)

/-- An encoded segment has no padding slack: `decodedLen` of its length is
exactly the byte count that was encoded. -/
theorem decodedLen_encodeB64 : ∀ bs : List Nat, decodedLen (encodeB64 bs).length = bs.length
  | [] => rfl
  | [b0] => by simp [encodeB64, decodedLen]
  | [b0, b1] => by simp [encodeB64, decodedLen]
  | b0 :: b1 :: b2 :: rest => by
      have ih := decodedLen_encodeB64 rest
      simp only [encodeB64, List.length_cons, decodedLen] at ih ⊢
      omega

/-- Full decode inverts encode (the newline filter is the identity on
alphabet bytes). -/
theorem decodeB64_encodeB64 (bs : List Nat) (h : ∀ b ∈ bs, b < 256) :
    decodeB64 (encodeB64 bs) = some bs := by
  unfold decodeB64
  have hf : (encodeB64 bs).filter (fun c => c != 10 && c != 13) = encodeB64 bs := by
    apply List.filter_eq_self.mpr
    intro c hc
    have := encodeB64_ne_delims bs h c hc
    simp only [bne_iff_ne, ne_eq, Bool.and_eq_true, decide_eq_true_eq]
    exact ⟨this.2.1, this.2.2⟩
  rw [hf]
  exact decodeQuanta_encodeB64 bs h

/-! ## Frame-parsing lemmas -/

/-- The first delimiter after a delimiter-free segment sits right after it. -/
theorem bytesIndexByte_append (l r : List Nat) (h : ∀ c ∈ l, c ≠ 42) :
    bytesIndexByte (l ++ 42 :: r) 42 = some l.length := by
  induction l with
  | nil => simp [bytesIndexByte]
  | cons a l ih =>
      have ha : a ≠ 42 := h a (by simp)
      have ih2 := ih fun c hc => h c (by simp [hc])
      simp [bytesIndexByte, ha, ih2]

/-- A delimiter-free byte list has no delimiter index. -/
theorem bytesIndexByte_none (l : List Nat) (h : ∀ c ∈ l, c ≠ 42) :
    bytesIndexByte l 42 = none := by
  induction l with
  | nil => rfl
  | cons a l ih =>
      have ha : a ≠ 42 := h a (by simp)
      have ih2 := ih fun c hc => h c (by simp [hc])
      simp [bytesIndexByte, ha, ih2]

/-- Parsing a frame built from an encoded algorithm recovers the algorithm
and the trailing raw cipher output. -/
theorem deriveEncryptionAlgorithm_frame (alg rest : List Nat)
    (h : ∀ b ∈ alg, b < 256) :
    deriveEncryptionAlgorithm (42 :: (encodeB64 alg ++ 42 :: rest)) =
      (alg, rest, none) := by
  have hne : ∀ c ∈ encodeB64 alg, c ≠ 42 :=
    fun c hc => (encodeB64_ne_delims alg h c hc).1
  have hdrop : (encodeB64 alg ++ 42 :: rest).drop ((encodeB64 alg).length + 1) = rest := by
    rw [List.drop_append 1, List.drop_one, List.tail_cons]
  simp only [deriveEncryptionAlgorithm, encryptionAlgorithmDelimiter, ne_eq,
    not_true_eq_false, if_false, bytesIndexByte_append _ _ hne]
  rw [List.take_left, hdrop]
  simp [decodeB64_encodeB64 alg h, decodedLen_encodeB64 alg]

/-! ## Batch-helper lemmas -/

/-- `Service.EncryptJsonData` is `mapJson` of per-value `Service.Encrypt`. -/
theorem encryptJsonData_eq_mapJson (sv : Service) (secret : List Nat) :
    ∀ kv, sv.EncryptJsonData kv secret = mapJson (fun v => sv.Encrypt v secret) kv
  | [] => rfl
  | (key, value) :: rest => by
      simp only [Service.EncryptJsonData, mapJson,
        encryptJsonData_eq_mapJson sv secret rest]

/-- `Service.DecryptJsonData` is `mapJson` of per-value `Service.Decrypt`. -/
theorem decryptJsonData_eq_mapJson (sv : Service) (secret : List Nat) :
    ∀ kv, sv.DecryptJsonData kv secret = mapJson (fun v => sv.Decrypt v secret) kv
  | [] => rfl
  | (key, value) :: rest => by
      simp only [Service.DecryptJsonData, mapJson,
        decryptJsonData_eq_mapJson sv secret rest]

/-- When every per-value call succeeds, `mapJson` returns the pointwise map
and no error. -/
theorem mapJson_success (f : List Nat → List Nat × Option (List Nat)) :
    ∀ kv, (∀ p ∈ kv, (f p.2).2 = none) →
      mapJson f kv = (some (kv.map fun p => (p.1, (f p.2).1)), none)
  | [], _ => rfl
  | (key, value) :: rest, h => by
      have hv : (f value).2 = none := h (key, value) (by simp)
      have ih := mapJson_success f rest fun p hp => h p (by simp [hp])
      cases hf : f value with
      | mk out err =>
          rw [hf] at hv
          simp only at hv
          subst hv
          simp [mapJson, hf, ih]

/-- The first failing entry aborts `mapJson` with that error and no result. -/
theorem mapJson_failFast (f : List Nat → List Nat × Option (List Nat)) :
    ∀ kv1 (key value : List Nat) kv2 e,
      (∀ p ∈ kv1, (f p.2).2 = none) → (f value).2 = some e →
      mapJson f (kv1 ++ (key, value) :: kv2) = (none, some e)
  | [], key, value, kv2, e, _, hv => by
      cases hf : f value with
      | mk out err =>
          rw [hf] at hv
          simp only at hv
          subst hv
          simp [mapJson, hf]
  | (k1, v1) :: rest, key, value, kv2, e, h, hv => by
      have hv1 : (f v1).2 = none := h (k1, v1) (by simp)
      have ih := mapJson_failFast f rest key value kv2 e
        (fun p hp => h p (by simp [hp])) hv
      cases hf : f v1 with
      | mk out err =>
          rw [hf] at hv1
          simp only at hv1
          subst hv1
          simp [mapJson, hf, ih]

/-! ## Claim theorems -/

/-- C1: For every payload and secret, if the configured algorithm has a
cipher and a decipher registered and the pair satisfies
decipher(cipher(p, s), s) = p, then Decrypt(Encrypt(p, s), s) returns p; the
frame built by Encrypt is parsed back by Decrypt to the same algorithm
identifier and the same raw cipher output (the base64 segment never contains
the delimiter byte 42). -/
theorem encrypt_decrypt_round_trip (sv : Service) (cipher : Cipher)
    (decipher : Decipher) (p secret : List Nat)
    (halg : ∀ b ∈ sv.settingsAlgorithm, b < 256)
    (hc : sv.ciphers sv.settingsAlgorithm = some cipher)
    (hd : sv.deciphers sv.settingsAlgorithm = some decipher)
    (hpair : decipher (cipher p secret).1 secret = (p, none)) :
    deriveEncryptionAlgorithm (sv.Encrypt p secret).1 =
      (sv.settingsAlgorithm, (cipher p secret).1, none) ∧
    sv.Decrypt (sv.Encrypt p secret).1 secret = (p, none) := by
  have henc : (sv.Encrypt p secret).1 =
      42 :: (encodeB64 sv.settingsAlgorithm ++ 42 :: (cipher p secret).1) := by
    simp [Service.Encrypt, hc, encryptionAlgorithmDelimiter]
  have hder :
      deriveEncryptionAlgorithm (sv.Encrypt p secret).1 =
        (sv.settingsAlgorithm, (cipher p secret).1, none) := by
    rw [henc]
    exact deriveEncryptionAlgorithm_frame sv.settingsAlgorithm (cipher p secret).1 halg
  refine ⟨hder, ?_⟩
  simp [Service.Decrypt, hder, hd, hpair]

/-- Witness for C1: the identity cipher pair on aes-cfb round-trips the
payload hello with secret k. -/
theorem encrypt_decrypt_round_trip_witness :
    svcAes.Decrypt (svcAes.Encrypt (strBytes "hello") (strBytes "k")).1
      (strBytes "k") = (strBytes "hello", none) :=
  (encrypt_decrypt_round_trip svcAes idCipher idCipher (strBytes "hello")
    (strBytes "k") (by decide) rfl rfl rfl).2

/-- C2 (code bug witness): with the registered cipher failing, Encrypt still
returns a nil error together with the deterministic framing prefix; the
cipher error is only logged, never surfaced, contradicting the claim that it
is propagated to the caller. -/
theorem encrypt_discards_cipher_error :
    (failingCipher (strBytes "hello") (strBytes "k")).2 =
      some (strBytes "cipher failure") ∧
    svcFailingCipher.Encrypt (strBytes "hello") (strBytes "k") =
      (strBytes "*YWVzLWNmYg*", none) := by
  constructor
  · rfl
  · rfl

/-- C3: Decrypt on a zero-length ciphertext fails with the
unable-to-derive error; the result is this constant for every service, i.e.
for every possible decipher registry, so no decipher is ever invoked. -/
theorem decrypt_empty_input (sv : Service) (secret : List Nat) :
    sv.Decrypt [] secret = ([], some errUnableToDerive) := rfl

/-- C4: Legacy fallback. A non-empty ciphertext whose first byte is not the
delimiter is handed verbatim to the registered aes-cfb decipher; a ciphertext
whose first byte is the delimiter but which contains no second delimiter is
handed to the aes-cfb decipher with only the leading delimiter stripped. -/
theorem decrypt_legacy_paths :
    (∀ (sv : Service) (d : Decipher) (b : Nat) (rest secret : List Nat),
      b ≠ 42 → sv.deciphers AesCfb = some d →
      sv.Decrypt (b :: rest) secret = d (b :: rest) secret) ∧
    (∀ (sv : Service) (d : Decipher) (rest secret : List Nat),
      (∀ c ∈ rest, c ≠ 42) → sv.deciphers AesCfb = some d →
      sv.Decrypt (42 :: rest) secret = d rest secret) := by
  constructor
  · intro sv d b rest secret hb hd
    simp [Service.Decrypt, deriveEncryptionAlgorithm, encryptionAlgorithmDelimiter, hb, hd]
  · intro sv d rest secret hrest hd
    simp [Service.Decrypt, deriveEncryptionAlgorithm, encryptionAlgorithmDelimiter,
      bytesIndexByte_none rest hrest, hd]

/-- Witness for C4: both legacy shapes decrypt through the identity aes-cfb
decipher of the concrete service. -/
theorem decrypt_legacy_paths_witness :
    svcAes.Decrypt (strBytes "legacy") (strBytes "k") = (strBytes "legacy", none) ∧
    svcAes.Decrypt (strBytes "*legacy") (strBytes "k") = (strBytes "legacy", none) := by
  constructor
  · exact decrypt_legacy_paths.1 svcAes idCipher 108 (strBytes "egacy")
      (strBytes "k") (by decide) rfl
  · exact decrypt_legacy_paths.2 svcAes idCipher (strBytes "legacy")
      (strBytes "k") (by decide) rfl

/-- C5: a well-formed frame whose segment is valid unpadded base64 (alphabet
bytes only, so in particular free of the delimiter 42 and of the newline
bytes 10 and 13 that the decoder would skip while DecodedLen counts them,
which would NUL-pad the identifier) and that names an algorithm with no
registered decipher makes Decrypt fail with the no-decipher error carrying
exactly that algorithm; the result is this constant for every registry
satisfying the lookup miss, so no decipher is invoked. -/
theorem decrypt_unregistered_algorithm (sv : Service)
    (b64 alg rest secret : List Nat)
    (hdec : decodeB64 b64 = some alg)
    (hnl : ∀ c ∈ b64, c ≠ 10 ∧ c ≠ 13)
    (hne : ∀ c ∈ b64, c ≠ 42)
    (hmiss : sv.deciphers alg = none) :
    sv.Decrypt (42 :: b64 ++ 42 :: rest) secret =
      ([], some (errNoDecipher alg)) := by
  have hfilter : b64.filter (fun c => c != 10 && c != 13) = b64 := by
    apply List.filter_eq_self.mpr
    intro c hc
    simp only [bne_iff_ne, ne_eq, Bool.and_eq_true, decide_eq_true_eq]
    exact hnl c hc
  have hlen : alg.length = decodedLen b64.length := by
    have h1 : decodeQuanta (b64.filter fun c => c != 10 && c != 13) = some alg := hdec
    rw [hfilter] at h1
    exact decodeQuanta_length b64 alg h1
  have hidx := bytesIndexByte_append b64 rest hne
  have hder : deriveEncryptionAlgorithm (42 :: (b64 ++ 42 :: rest)) =
      (alg, rest, none) := by
    simp only [deriveEncryptionAlgorithm, encryptionAlgorithmDelimiter, ne_eq,
      not_true_eq_false, if_false, hidx]
    rw [List.take_left, List.drop_append 1, List.drop_one, List.tail_cons]
    simp [hdec, hlen]
  simp [Service.Decrypt, hder, hmiss]

/-- Witness for C5: the frame naming algorithm foo (base64 Zm9v) fails on the
concrete service, whose registry only holds aes-cfb. -/
theorem decrypt_unregistered_algorithm_witness :
    svcAes.Decrypt (strBytes "*Zm9v*XYZ") (strBytes "k") =
      ([], some (errNoDecipher (strBytes "foo"))) := by
  have h := decrypt_unregistered_algorithm svcAes (strBytes "Zm9v")
    (strBytes "foo") (strBytes "XYZ") (strBytes "k") (by decide) (by decide)
    (by decide) rfl
  exact h

/-- C6 (counterexample): with empty registries and configured algorithm foo,
construction fails and returns no service, but the error is the fixed message
of the source, which does not contain the algorithm name foo — the error does
not name the missing algorithm. -/
theorem provide_error_not_naming_algorithm :
    ProvideEncryptionService (fun _ => none) (fun _ => none) (strBytes "foo") =
      (none, some errNoCipherRegistered) ∧
    ¬ strBytes "foo" <:+: errNoCipherRegistered := by
  exact ⟨rfl, by decide⟩

/-- C6 (amended): whenever the configured algorithm lacks a registered cipher
or decipher, construction fails with the fixed configuration-error message
(the algorithm appears only in the log, not in the error) and no service
value is returned. -/
theorem provide_fails_on_missing_capability (ciphers : List Nat → Option Cipher)
    (deciphers : List Nat → Option Decipher) (algorithm : List Nat)
    (h : ciphers algorithm = none ∨ deciphers algorithm = none) :
    ProvideEncryptionService ciphers deciphers algorithm =
      (none, some errNoCipherRegistered) := by
  rcases h with h | h
  · simp [ProvideEncryptionService, Service.checkEncryptionAlgorithm, h]
  · cases hc : ciphers algorithm <;>
      simp [ProvideEncryptionService, Service.checkEncryptionAlgorithm, h, hc]

/-- Witness for the amended C6: empty registries with the default algorithm
configured. -/
theorem provide_fails_on_missing_capability_witness :
    ProvideEncryptionService (fun _ => none) (fun _ => none) AesCfb =
      (none, some errNoCipherRegistered) :=
  provide_fails_on_missing_capability (fun _ => none) (fun _ => none) AesCfb
    (Or.inl rfl)

/-- C7: GetDecryptedValue returns the fallback when the key is absent
(without decrypting), returns the fallback when decryption of the stored
value fails (the error is swallowed: the return type carries no error), and
returns the decrypted bytes when decryption succeeds. -/
theorem get_decrypted_value_or_fallback (sv : Service)
    (sjd : List (List Nat × List Nat)) (key fallback secret : List Nat) :
    (sjd.lookup key = none →
      sv.GetDecryptedValue sjd key fallback secret = fallback) ∧
    (∀ value e, sjd.lookup key = some value →
      (sv.Decrypt value secret).2 = some e →
      sv.GetDecryptedValue sjd key fallback secret = fallback) ∧
    (∀ value d, sjd.lookup key = some value →
      sv.Decrypt value secret = (d, none) →
      sv.GetDecryptedValue sjd key fallback secret = d) := by
  refine ⟨?_, ?_, ?_⟩
  · intro h
    simp [Service.GetDecryptedValue, h]
  · intro value e h1 h2
    unfold Service.GetDecryptedValue
    rw [h1]
    rcases h3 : sv.Decrypt value secret with ⟨dec, err⟩
    rw [h3] at h2
    simp only at h2
    subst h2
    simp [h3]
  · intro value d h1 h2
    unfold Service.GetDecryptedValue
    rw [h1]
    simp [h2]

/-- Witness for C7: absent key, failing decryption (empty stored value), and
succeeding decryption on the concrete service. -/
theorem get_decrypted_value_or_fallback_witness :
    svcAes.GetDecryptedValue [] (strBytes "k") (strBytes "fb") (strBytes "s") =
      strBytes "fb" ∧
    svcAes.GetDecryptedValue [(strBytes "k", [])] (strBytes "k") (strBytes "fb")
      (strBytes "s") = strBytes "fb" ∧
    svcAes.GetDecryptedValue [(strBytes "k", strBytes "*YWVzLWNmYg*hi")]
      (strBytes "k") (strBytes "fb") (strBytes "s") = strBytes "hi" := by
  refine ⟨?_, ?_, ?_⟩
  · exact (get_decrypted_value_or_fallback svcAes [] (strBytes "k")
      (strBytes "fb") (strBytes "s")).1 rfl
  · exact (get_decrypted_value_or_fallback svcAes [(strBytes "k", [])]
      (strBytes "k") (strBytes "fb") (strBytes "s")).2.1 [] errUnableToDerive
      rfl rfl
  · exact (get_decrypted_value_or_fallback svcAes
      [(strBytes "k", strBytes "*YWVzLWNmYg*hi")] (strBytes "k")
      (strBytes "fb") (strBytes "s")).2.2 (strBytes "*YWVzLWNmYg*hi")
      (strBytes "hi") rfl rfl

/-- C8: with aes-cfb configured and its cipher succeeding with output co,
Encrypt returns exactly the bytes of *YWVzLWNmYg* followed by co, and no
error. -/
theorem encrypt_wire_format (sv : Service) (cipher : Cipher)
    (payload secret co : List Nat)
    (halg : sv.settingsAlgorithm = strBytes "aes-cfb")
    (hc : sv.ciphers sv.settingsAlgorithm = some cipher)
    (henc : cipher payload secret = (co, none)) :
    sv.Encrypt payload secret = (strBytes "*YWVzLWNmYg*" ++ co, none) := by
  have hc2 : sv.ciphers (strBytes "aes-cfb") = some cipher := halg ▸ hc
  have hb64 : encodeB64 (strBytes "aes-cfb") = strBytes "YWVzLWNmYg" := by decide
  have hframe : strBytes "*YWVzLWNmYg*" =
      (42 : Nat) :: (strBytes "YWVzLWNmYg" ++ [42]) := by decide
  simp only [Service.Encrypt, halg, hc2, henc, encryptionAlgorithmDelimiter, hb64]
  rw [hframe]
  simp [List.append_assoc]

/-- Witness for C8: encrypting hello with secret k on the concrete service
yields the framed identity-cipher output. -/
theorem encrypt_wire_format_witness :
    svcAes.Encrypt (strBytes "hello") (strBytes "k") =
      (strBytes "*YWVzLWNmYg*hello", none) := by
  have h := encrypt_wire_format svcAes idCipher (strBytes "hello")
    (strBytes "k") (strBytes "hello") rfl rfl rfl
  exact h

/-- C9: the two batch helpers encrypt or decrypt every value independently;
an error leaves no partial result; on all-success the result has exactly the
input keys with the per-value transforms; the first failing entry (in
iteration order) yields exactly its error; and the success result is
permutation-compatible with any reordering of the iteration. -/
theorem json_data_all_or_nothing (sv : Service) (secret : List Nat) :
    (∀ kv e, (sv.EncryptJsonData kv secret).2 = some e →
      (sv.EncryptJsonData kv secret).1 = none) ∧
    (∀ kv e, (sv.DecryptJsonData kv secret).2 = some e →
      (sv.DecryptJsonData kv secret).1 = none) ∧
    (∀ kv, (∀ p ∈ kv, (sv.Encrypt p.2 secret).2 = none) →
      sv.EncryptJsonData kv secret =
        (some (kv.map fun p => (p.1, (sv.Encrypt p.2 secret).1)), none)) ∧
    (∀ kv, (∀ p ∈ kv, (sv.Decrypt p.2 secret).2 = none) →
      sv.DecryptJsonData kv secret =
        (some (kv.map fun p => (p.1, (sv.Decrypt p.2 secret).1)), none)) ∧
    (∀ kv1 key value kv2 e, (∀ p ∈ kv1, (sv.Encrypt p.2 secret).2 = none) →
      (sv.Encrypt value secret).2 = some e →
      sv.EncryptJsonData (kv1 ++ (key, value) :: kv2) secret = (none, some e)) ∧
    (∀ kv1 key value kv2 e, (∀ p ∈ kv1, (sv.Decrypt p.2 secret).2 = none) →
      (sv.Decrypt value secret).2 = some e →
      sv.DecryptJsonData (kv1 ++ (key, value) :: kv2) secret = (none, some e)) ∧
    (∀ kv kv2, kv.Perm kv2 → (∀ p ∈ kv, (sv.Encrypt p.2 secret).2 = none) →
      ∃ m m2, sv.EncryptJsonData kv secret = (some m, none) ∧
        sv.EncryptJsonData kv2 secret = (some m2, none) ∧ m.Perm m2) ∧
    (∀ kv kv2, kv.Perm kv2 → (∀ p ∈ kv, (sv.Decrypt p.2 secret).2 = none) →
      ∃ m m2, sv.DecryptJsonData kv secret = (some m, none) ∧
        sv.DecryptJsonData kv2 secret = (some m2, none) ∧ m.Perm m2) := by
  have mapShape : ∀ (f : List Nat → List Nat × Option (List Nat)) kv e,
      (mapJson f kv).2 = some e → (mapJson f kv).1 = none := by
    intro f kv
    induction kv with
    | nil => intro e he; simp [mapJson] at he
    | cons p rest ih =>
        intro e he
        obtain ⟨key, value⟩ := p
        cases hf : f value with
        | mk out err =>
            cases err with
            | some e1 => simp [mapJson, hf]
            | none =>
                rw [mapJson, hf] at he ⊢
                simp only at he ⊢
                cases hm : mapJson f rest with
                | mk res err2 =>
                    cases res with
                    | none => simp [hm]
                    | some tl =>
                        rw [hm] at he
                        simp at he
  refine ⟨?_, ?_, ?_, ?_, ?_, ?_, ?_, ?_⟩
  · intro kv e he
    rw [encryptJsonData_eq_mapJson] at he ⊢
    exact mapShape _ kv e he
  · intro kv e he
    rw [decryptJsonData_eq_mapJson] at he ⊢
    exact mapShape _ kv e he
  · intro kv h
    rw [encryptJsonData_eq_mapJson]
    exact mapJson_success _ kv h
  · intro kv h
    rw [decryptJsonData_eq_mapJson]
    exact mapJson_success _ kv h
  · intro kv1 key value kv2 e h hv
    rw [encryptJsonData_eq_mapJson]
    exact mapJson_failFast _ kv1 key value kv2 e h hv
  · intro kv1 key value kv2 e h hv
    rw [decryptJsonData_eq_mapJson]
    exact mapJson_failFast _ kv1 key value kv2 e h hv
  · intro kv kv2 hperm h
    have h2 : ∀ p ∈ kv2, (sv.Encrypt p.2 secret).2 = none :=
      fun p hp => h p (hperm.mem_iff.mpr hp)
    refine ⟨kv.map fun p => (p.1, (sv.Encrypt p.2 secret).1),
      kv2.map fun p => (p.1, (sv.Encrypt p.2 secret).1), ?_, ?_, ?_⟩
    · rw [encryptJsonData_eq_mapJson]; exact mapJson_success _ kv h
    · rw [encryptJsonData_eq_mapJson]; exact mapJson_success _ kv2 h2
    · exact hperm.map fun p => (p.1, (sv.Encrypt p.2 secret).1)
  · intro kv kv2 hperm h
    have h2 : ∀ p ∈ kv2, (sv.Decrypt p.2 secret).2 = none :=
      fun p hp => h p (hperm.mem_iff.mpr hp)
    refine ⟨kv.map fun p => (p.1, (sv.Decrypt p.2 secret).1),
      kv2.map fun p => (p.1, (sv.Decrypt p.2 secret).1), ?_, ?_, ?_⟩
    · rw [decryptJsonData_eq_mapJson]; exact mapJson_success _ kv h
    · rw [decryptJsonData_eq_mapJson]; exact mapJson_success _ kv2 h2
    · exact hperm.map fun p => (p.1, (sv.Decrypt p.2 secret).1)

/-- Witness for C9: a one-entry success for EncryptJsonData and a one-entry
failure for DecryptJsonData (empty stored ciphertext) on the concrete
service. -/
theorem json_data_all_or_nothing_witness :
    svcAes.EncryptJsonData [(strBytes "a", strBytes "1")] (strBytes "k") =
      (some [(strBytes "a", strBytes "*YWVzLWNmYg*1")], none) ∧
    svcAes.DecryptJsonData [(strBytes "a", [])] (strBytes "k") =
      (none, some errUnableToDerive) := by
  constructor
  · have h := (json_data_all_or_nothing svcAes (strBytes "k")).2.2.1
      [(strBytes "a", strBytes "1")]
      (by intro p hp; rw [List.mem_singleton] at hp; subst hp; rfl)
    exact h
  · have h := (json_data_all_or_nothing svcAes (strBytes "k")).2.2.2.2.2.1
      [] (strBytes "a") [] [] errUnableToDerive
      (by intro p hp; exact absurd hp (List.not_mem_nil p)) rfl
    exact h

/-- C10: a ciphertext beginning with two consecutive delimiters parses as a
well-formed frame whose algorithm identifier decodes to the empty byte
string (not as a legacy payload), so with no decipher registered under the
empty identifier Decrypt fails with the no-decipher error for it; the result
is fixed for every such registry, so no decipher is invoked. -/
theorem decrypt_double_delimiter (sv : Service) (rest secret : List Nat)
    (h : sv.deciphers [] = none) :
    deriveEncryptionAlgorithm (42 :: 42 :: rest) = ([], rest, none) ∧
    sv.Decrypt (42 :: 42 :: rest) secret = ([], some (errNoDecipher [])) := by
  have hder : deriveEncryptionAlgorithm (42 :: 42 :: rest) = ([], rest, none) := by
    simp [deriveEncryptionAlgorithm, encryptionAlgorithmDelimiter,
      bytesIndexByte, decodeB64, decodeQuanta, decodedLen]
  refine ⟨hder, ?_⟩
  simp [Service.Decrypt, hder, h]

/-- Witness for C10: the concrete service registers no decipher under the
empty identifier. -/
theorem decrypt_double_delimiter_witness :
    svcAes.Decrypt (42 :: 42 :: strBytes "x") (strBytes "k") =
      ([], some (errNoDecipher [])) :=
  (decrypt_double_delimiter svcAes (strBytes "x") (strBytes "k") rfl).2

end EncryptionService
